import Mathlib

/-!
Verification of the session/query-cache manager (`edb/server/backend/dbview.py`),
the function-call overload checker (`edgedb/lang/edgeql/compiler/func.py`) and the
GraphQL-style document grammar reductions
(`edgedb/lang/graphql/parser/grammar/document.py`).

Modelling conventions:
* opaque Python values (query bytes, config maps, module-alias maps, user names,
  transaction ids, schema classes) are modelled as `Nat`; only identity/equality
  of these values is ever inspected by the code under verification;
* the monotonic clock used for `dbver` stamps (`time.monotonic_ns`) is modelled
  as a strictly increasing counter: `_signal_ddl` advances `_dbver` by one;
* the bounded LRU mapping is an external dependency whose capacity is a
  deployment tunable; it is modelled as an unbounded association list with
  insert/lookup/clear (eviction is outside this excerpt);
* Python exceptions are modelled with `Except`; for the connection-view methods
  the error value also carries the state of the view at the moment of the raise
  (Python mutations performed before a raise persist on the object).
-/

deriving instance DecidableEq for Except

/-- Compiled query unit (the fields of `dbstate.QueryUnit` read by `dbview.py`).
`config`/`modaliases`/`txid` are optional payloads; a Python falsy payload
(absent or empty) is modelled as `none`. -/
structure QueryUnit where
  dbver : Nat
  is_preparable : Bool
  starts_tx : Bool
  commits_tx : Bool
  rollbacks_tx : Bool
  savepoint_rollbacks : Bool
  has_ddl : Bool
  config : Option Nat
  modaliases : Option Nat
  txid : Option Nat
deriving DecidableEq

/-- Cache key: `(eql, json_mode, modaliases, config)`. -/
abbrev CacheKey := Nat × Bool × Nat × Nat

/-- Query cache: association list keyed by `CacheKey` (models the LRU mapping,
eviction elided as an external concern). -/
abbrev QueryCache := List (CacheKey × QueryUnit)

/-- Lookup in a query cache (`LRUMapping.get`). -/
def cacheGet : QueryCache → CacheKey → Option QueryUnit
  | [], _ => none
  | (k, v) :: rest, key => if k = key then some v else cacheGet rest key

/-- Insert/replace in a query cache (`mapping[key] = value`). -/
def cacheSet : QueryCache → CacheKey → QueryUnit → QueryCache
  | [], key, v => [(key, v)]
  | (k, u) :: rest, key, v =>
      if k = key then (key, v) :: rest else (k, u) :: cacheSet rest key v

/-- Errors raised by the session manager. -/
inductive Err where
  | transactionError (msg : String)
  | internalServerError (msg : String)
  | assertionError
deriving DecidableEq

/-- `Database`: shared per-database state (name, version stamp, shared cache). -/
structure Database where
  _name : Nat
  _dbver : Nat
  _eql_to_compiled : QueryCache
deriving DecidableEq

/-- `Database._invalidate_caches`: clear the shared compiled-query cache. -/
def Database._invalidate_caches (db : Database) : Database :=
  { db with _eql_to_compiled := [] }

/-- `Database._signal_ddl`: advance the version stamp (monotonic clock modelled
as a counter) and invalidate the shared cache. -/
def Database._signal_ddl (db : Database) : Database :=
  Database._invalidate_caches { db with _dbver := db._dbver + 1 }

/-- `Database._cache_compiled_query`: asserts the unit is preparable; keeps the
existing entry when it carries a strictly greater `dbver` stamp, otherwise
stores the new unit. -/
def Database._cache_compiled_query (db : Database) (key : CacheKey)
    (compiled : QueryUnit) : Except Err Database :=
  if !compiled.is_preparable then .error .assertionError
  else
    match cacheGet db._eql_to_compiled key with
    | some existing =>
        if existing.dbver > compiled.dbver then .ok db
        else .ok { db with _eql_to_compiled :=
                     cacheSet db._eql_to_compiled key compiled }
    | none => .ok { db with _eql_to_compiled :=
                      cacheSet db._eql_to_compiled key compiled }

/-- Runs a sequence of `Database._cache_compiled_query` insertions. -/
def Database.cacheRun : Database → List (CacheKey × QueryUnit) →
    Except Err Database
  | db, [] => .ok db
  | db, (k, c) :: rest =>
      match Database._cache_compiled_query db k c with
      | .ok db2 => Database.cacheRun db2 rest
      | .error e => .error e

/-- `DatabaseConnectionView`: per-session state, holding its owning `Database`
(single-session traces, so the shared database is embedded in the state). -/
structure DatabaseConnectionView where
  _db : Database
  _user : Nat
  _config : Nat
  _modaliases : Nat
  _eql_to_compiled : QueryCache
  _txid : Option Nat
  _in_tx : Bool
  _in_tx_with_ddl : Bool
  _tx_error : Bool
  _config_before_tx : Nat
  _modaliases_before_tx : Nat
deriving DecidableEq

namespace DatabaseConnectionView

/-- `_invalidate_local_cache`: clear the transaction-local cache. -/
def _invalidate_local_cache (s : DatabaseConnectionView) :
    DatabaseConnectionView :=
  { s with _eql_to_compiled := [] }

/-- `_reset_tx_state`: reset transaction flags, re-snapshot config/aliases,
clear the local cache. -/
def _reset_tx_state (s : DatabaseConnectionView) : DatabaseConnectionView :=
  _invalidate_local_cache
    { s with
      _txid := none
      _in_tx := false
      _in_tx_with_ddl := false
      _tx_error := false
      _config_before_tx := s._config
      _modaliases_before_tx := s._modaliases }

/-- `__init__`: a fresh view on `db` (initial config and the default
module-alias map are modelled by the opaque value `0`). -/
def init (db : Database) (user : Nat) : DatabaseConnectionView :=
  _reset_tx_state
    { _db := db, _user := user, _config := 0, _modaliases := 0,
      _eql_to_compiled := [], _txid := none, _in_tx := false,
      _in_tx_with_ddl := false, _tx_error := false,
      _config_before_tx := 0, _modaliases_before_tx := 0 }

/-- `abort_tx`: raises unless in a transaction; otherwise restores the
pre-transaction config/aliases and resets transaction state. -/
def abort_tx (s : DatabaseConnectionView) :
    Except (Err × DatabaseConnectionView) DatabaseConnectionView :=
  if !s._in_tx then
    .error (.internalServerError "abort_tx(): not in transaction", s)
  else
    .ok (_reset_tx_state
      { s with _config := s._config_before_tx,
               _modaliases := s._modaliases_before_tx })

/-- `rollback`: reset transaction state (config/aliases already restored by
the caller). -/
def rollback (s : DatabaseConnectionView) : DatabaseConnectionView :=
  _reset_tx_state s

/-- `cache_compiled_query`: asserts preparability; routes the unit to the
local cache inside a DDL transaction, else to the shared database cache. -/
def cache_compiled_query (s : DatabaseConnectionView) (eql : Nat)
    (json_mode : Bool) (compiled : QueryUnit) :
    Except (Err × DatabaseConnectionView) DatabaseConnectionView :=
  if !compiled.is_preparable then .error (.assertionError, s)
  else
    let key : CacheKey := (eql, json_mode, s._modaliases, s._config)
    if s._in_tx_with_ddl then
      .ok { s with _eql_to_compiled := cacheSet s._eql_to_compiled key compiled }
    else
      match Database._cache_compiled_query s._db key compiled with
      | .ok db => .ok { s with _db := db }
      | .error e => .error (e, s)

/-- `lookup_compiled_query`: absent while the transaction is poisoned; local
cache inside a DDL transaction; otherwise a shared-cache hit is discarded when
its `dbver` stamp differs from the current database version. -/
def lookup_compiled_query (s : DatabaseConnectionView) (eql : Nat)
    (json_mode : Bool) : Option QueryUnit :=
  if s._tx_error then none
  else
    let key : CacheKey := (eql, json_mode, s._modaliases, s._config)
    if s._in_tx_with_ddl then cacheGet s._eql_to_compiled key
    else
      match cacheGet s._db._eql_to_compiled key with
      | some compiled =>
          if compiled.dbver ≠ s._db._dbver then none else some compiled
      | none => none

/-- `tx_error`: poison the transaction, only when one is open. -/
def tx_error (s : DatabaseConnectionView) : DatabaseConnectionView :=
  if s._in_tx then { s with _tx_error := true } else s

/-- `start`: gate on a poisoned transaction (clear the flag for rollback
units, raise otherwise — the raise precedes every mutation); open a
transaction for `starts_tx` units (asserting they are not preparable); raise
on an unset transaction id; record in-transaction DDL.  Straight-line
rendering of the Python method: the first branch raises exactly when
`tx_error` is set and the unit is no rollback, and the flag is cleared in the
remaining `tx_error` cases. -/
def start (s : DatabaseConnectionView) (qu : QueryUnit) :
    Except (Err × DatabaseConnectionView) DatabaseConnectionView :=
  if s._tx_error && !(qu.savepoint_rollbacks || qu.rollbacks_tx) then
    .error (.transactionError
      "current transaction is aborted, commands ignored until end of transaction block", s)
  else
    let s1 := if s._tx_error then { s with _tx_error := false } else s
    if qu.starts_tx && qu.is_preparable then
      .error (.assertionError, s1)
    else
      let s2 := if qu.starts_tx then
                  { s1 with _in_tx := true, _txid := qu.txid }
                else s1
      if s2._in_tx && s2._txid = none then
        .error (.internalServerError "unset txid in transaction", s2)
      else
        .ok (if s2._in_tx && qu.has_ddl then
               { s2 with _in_tx_with_ddl := true }
             else s2)

/-- `on_error`: delegate to `tx_error`. -/
def on_error (s : DatabaseConnectionView) (_qu : QueryUnit) :
    DatabaseConnectionView :=
  s.tx_error

/-- Final block of `on_success`: while not in a transaction, keep the
pre-transaction snapshots in sync with the current config/aliases. -/
def resnapshot (s : DatabaseConnectionView) : DatabaseConnectionView :=
  if !s._in_tx then
    { s with _config_before_tx := s._config,
             _modaliases_before_tx := s._modaliases }
  else s

/-- `on_success`, in source order: (1) clear the local cache for DDL units or
savepoint rollbacks inside a DDL transaction; (2) signal DDL on the database
for non-transactional DDL; (3)–(4) apply config/alias deltas; (5) on commit
assert a transaction is open, signal DDL if the transaction contained DDL, and
reset; (6) on rollback assert a transaction is open and that config/aliases
already equal their snapshots, and reset; (7) re-snapshot when no transaction
remains open. -/
def on_success (s : DatabaseConnectionView) (qu : QueryUnit) :
    Except (Err × DatabaseConnectionView) DatabaseConnectionView :=
  let s1 := if qu.has_ddl || (s._in_tx_with_ddl && qu.savepoint_rollbacks)
            then s._invalidate_local_cache else s
  let s2 := if !s1._in_tx && qu.has_ddl
            then { s1 with _db := s1._db._signal_ddl } else s1
  let s3 := match qu.config with
            | some c => { s2 with _config := c }
            | none => s2
  let s4 := match qu.modaliases with
            | some m => { s3 with _modaliases := m }
            | none => s3
  if qu.commits_tx then
    if !s4._in_tx then .error (.assertionError, s4)
    else
      let s5 := if s4._in_tx_with_ddl
                then { s4 with _db := s4._db._signal_ddl } else s4
      .ok (resnapshot (_reset_tx_state s5))
  else if qu.rollbacks_tx then
    if !s4._in_tx then .error (.assertionError, s4)
    else if s4._config ≠ s4._config_before_tx then .error (.assertionError, s4)
    else if s4._modaliases ≠ s4._modaliases_before_tx then
      .error (.assertionError, s4)
    else .ok (resnapshot (_reset_tx_state s4))
  else .ok (resnapshot s4)

/-- One executed unit: `start` followed by `on_success`. -/
def execUnit (s : DatabaseConnectionView) (qu : QueryUnit) :
    Except (Err × DatabaseConnectionView) DatabaseConnectionView :=
  match s.start qu with
  | .ok s1 => s1.on_success qu
  | .error e => .error e

/-- A sequence of executed units. -/
def execUnits : DatabaseConnectionView → List QueryUnit →
    Except (Err × DatabaseConnectionView) DatabaseConnectionView
  | s, [] => .ok s
  | s, qu :: qus =>
      match s.execUnit qu with
      | .ok s1 => execUnits s1 qus
      | .error e => .error e

/-- Baseline invariant: outside a transaction the session is unpoisoned, has
no transaction id, and the pre-transaction snapshots match the current
config/aliases. -/
def baselineInv (s : DatabaseConnectionView) : Prop :=
  s._in_tx = false →
    (s._tx_error = false ∧ s._txid = none ∧
     s._config_before_tx = s._config ∧
     s._modaliases_before_tx = s._modaliases)

instance (s : DatabaseConnectionView) : Decidable (baselineInv s) := by
  unfold baselineInv; infer_instance

end DatabaseConnectionView

/-!
Embedding of `edgedb/lang/edgeql/compiler/func.py`: `check_function` and the
overload-selection loop of `compile_FunctionCall`.  Schema classes are opaque
(`Nat`); the `issubclass` oracle is a parameter.
-/

/-- A function overload from the catalog: ordered parameter types, ordered
per-parameter defaults (`none` = required), optional 1-based variadic
position. -/
structure FuncSig where
  paramtypes : List Nat
  paramdefaults : List (Option Nat)
  varparam : Option Nat
deriving DecidableEq

/-- Zero-argument branch of `check_function`: every parameter must have a
default or be the variadic one (`pi` is the 1-based position). -/
def noArgsCallableLoop (varparam : Option Nat) : Nat → List (Option Nat) → Bool
  | _, [] => true
  | pi, pd :: rest =>
      if pd = none && some pi ≠ varparam then false
      else noArgsCallableLoop varparam (pi + 1) rest

/-- Whether a non-nullary overload accepts a zero-argument call. -/
def noArgsCallable (f : FuncSig) : Bool :=
  noArgsCallableLoop f.varparam 1 f.paramdefaults

/-- Main pairing loop of `check_function` (`zip_longest` over parameter and
argument types).  When the parameter side is exhausted first, surplus
arguments are checked against the variadic parameter type (or the overload is
rejected when there is none); when the argument side is exhausted first the
padded absent argument reaches `issubclass` and raises (`.error ()`, the
AttributeError of `None.issubclass`); an out-of-range variadic index likewise
raises. -/
def checkLoop (issub : Nat → Nat → Bool) (f : FuncSig) :
    List Nat → List Nat → Except Unit Bool
  | pt :: pts, a :: ats =>
      if issub a pt then checkLoop issub f pts ats else .ok false
  | _ :: _, [] => .error ()
  | [], a :: ats =>
      match f.varparam with
      | some v =>
          match f.paramtypes[v - 1]? with
          | some pt => .ok ((a :: ats).all fun x => issub x pt)
          | none => .error ()
      | none => .ok false
  | [], [] => .ok true

/-- `check_function`: nullary overloads match only nullary calls; a
zero-argument call against a non-empty parameter list is checked against the
defaults; otherwise parameter and argument types are paired positionally. -/
def check_function (issub : Nat → Nat → Bool) (func : FuncSig)
    (arg_types : List Nat) : Except Unit Bool :=
  if func.paramtypes.isEmpty then
    .ok arg_types.isEmpty
  else if arg_types.isEmpty then
    .ok (noArgsCallable func)
  else
    checkLoop issub func func.paramtypes arg_types

/-- Outcome of the overload-selection loop. -/
inductive FuncErr where
  | noVariant
  | attributeError
deriving DecidableEq

/-- Selection loop of `compile_FunctionCall`: the first overload in catalog
order passing `check_function` is selected; the `for … else` raises
`could not find a function variant` when the loop completes without a match;
a crash inside `check_function` propagates. -/
def compile_FunctionCall_select (issub : Nat → Nat → Bool) :
    List FuncSig → List Nat → Except FuncErr FuncSig
  | [], _ => .error .noVariant
  | f :: fs, arg_types =>
      match check_function issub f arg_types with
      | .error _ => .error .attributeError
      | .ok true => .ok f
      | .ok false => compile_FunctionCall_select issub fs arg_types

/-!
Embedding of `edgedb/lang/graphql/parser/grammar/document.py`: the
`Document.reduce_Definitions`, `Arguments.reduce_LPAREN_ArgumentList_RPAREN`
and `Variables.reduce_LPAREN_VariableList_RPAREN` reductions.  Names are
opaque (`Nat`); only the AST fields those reductions read are modelled.
-/

/-- A parsed definition: an operation definition (optional explicit type,
optional name, variable definitions, directives — a Python falsy
payload for variable definitions or directives is the empty list) or a
fragment definition. -/
inductive GDef where
  | opDef (type : Option Nat) (name : Option Nat)
      (variableDefs : List Nat) (directives : List Nat)
  | fragDef (name : Nat)
deriving DecidableEq

/-- Errors raised during grammar reduction: `GraphQLUniquenessError` (tagged
with the duplicated entity kind) or `GraphQLParserError` (with its message). -/
inductive GqlErr where
  | uniquenessError (what : String)
  | parserError (msg : String)
deriving DecidableEq

/-- Whether a definition is an operation definition. -/
def GDef.isOp : GDef → Bool
  | .opDef .. => true
  | .fragDef _ => false

/-- The anonymous shorthand shape: an operation with no name, no explicit
type, no variables and no directives. -/
def GDef.isShort : GDef → Bool
  | .opDef none none [] [] => true
  | _ => false

/-- The (present) name of an operation definition. -/
def opName : GDef → Option Nat
  | .opDef _ n _ _ => n
  | .fragDef _ => none

/-- The name of a fragment definition. -/
def fragName : GDef → Option Nat
  | .opDef .. => none
  | .fragDef n => some n

/-- All present operation names of a document, in order. -/
def opNames (defs : List GDef) : List Nat := defs.filterMap opName

/-- All fragment names of a document, in order. -/
def fragNames (defs : List GDef) : List Nat := defs.filterMap fragName

/-- The definition loop of `Document.reduce_Definitions`: accumulates the
first shorthand operation, the set of fragment names and the set of present
operation names, raising a uniqueness error at the first repeated name (the
accumulator lists only ever receive fresh names, so their length is the set
size). -/
def documentLoop : List GDef → Option GDef → List Nat → List Nat →
    Except GqlErr (Option GDef × List Nat × List Nat)
  | [], short, fragnames, opnames => .ok (short, fragnames, opnames)
  | .opDef _ty (some n) _vars _dirs :: ds, short, fragnames, opnames =>
      if n ∈ opnames then .error (.uniquenessError "operation")
      else documentLoop ds short fragnames (n :: opnames)
  | .opDef ty none vars dirs :: ds, short, fragnames, opnames =>
      if short.isNone && ty.isNone && vars.isEmpty && dirs.isEmpty then
        documentLoop ds (some (.opDef ty none vars dirs)) fragnames opnames
      else
        documentLoop ds short fragnames opnames
  | .fragDef n :: ds, short, fragnames, opnames =>
      if n ∈ fragnames then .error (.uniquenessError "fragment")
      else documentLoop ds short (n :: fragnames) opnames

/-- `Document.reduce_Definitions`: run the definition loop, then reject a
shorthand operation unless the number of definitions minus the number of
distinct fragment names is at most one. -/
def reduce_Definitions (defs : List GDef) : Except GqlErr (List GDef) :=
  match documentLoop defs none [] [] with
  | .error e => .error e
  | .ok (short, fragnames, _) =>
      if short.isSome && decide (defs.length - fragnames.length > 1) then
        .error (.parserError "short form is not allowed here")
      else
        .ok defs

/-- An argument AST node (name and value). -/
structure GArg where
  name : Nat
  value : Nat
deriving DecidableEq

/-- Uniqueness loop of `Arguments.reduce_LPAREN_ArgumentList_RPAREN`. -/
def argumentsLoop : List GArg → List Nat → Except GqlErr Unit
  | [], _ => .ok ()
  | a :: rest, argnames =>
      if a.name ∈ argnames then .error (.uniquenessError "argument")
      else argumentsLoop rest (a.name :: argnames)

/-- `Arguments.reduce_LPAREN_ArgumentList_RPAREN`: the argument list passes
through after its names are checked pairwise distinct. -/
def reduce_Arguments (args : List GArg) : Except GqlErr (List GArg) :=
  match argumentsLoop args [] with
  | .ok _ => .ok args
  | .error e => .error e

/-- A variable-definition AST node (name, type reference, default value). -/
structure GVarDef where
  name : Nat
  vtype : Nat
  value : Option Nat
deriving DecidableEq

/-- Uniqueness loop of `Variables.reduce_LPAREN_VariableList_RPAREN`. -/
def variablesLoop : List GVarDef → List Nat → Except GqlErr Unit
  | [], _ => .ok ()
  | v :: rest, varnames =>
      if v.name ∈ varnames then .error (.uniquenessError "variable")
      else variablesLoop rest (v.name :: varnames)

/-- `Variables.reduce_LPAREN_VariableList_RPAREN`: the variable list passes
through after its names are checked pairwise distinct. -/
def reduce_Variables (vars : List GVarDef) : Except GqlErr (List GVarDef) :=
  match variablesLoop vars [] with
  | .ok _ => .ok vars
  | .error e => .error e

/-!
Sample values used by the witness theorems.
-/

/-- A sample preparable unit stamped with database version `d`. -/
def exUnit (d : Nat) : QueryUnit :=
  { dbver := d, is_preparable := true, starts_tx := false, commits_tx := false,
    rollbacks_tx := false, savepoint_rollbacks := false, has_ddl := false,
    config := none, modaliases := none, txid := none }

/-- A sample database at version 5 whose shared cache holds one entry
compiled at version 5 under the key `(1, false, 0, 0)`. -/
def exDb : Database :=
  { _name := 0, _dbver := 5, _eql_to_compiled := [((1, false, 0, 0), exUnit 5)] }

/-- A sample baseline session view on `exDb`. -/
def exView : DatabaseConnectionView :=
  { _db := exDb, _user := 0, _config := 0, _modaliases := 0,
    _eql_to_compiled := [], _txid := none, _in_tx := false,
    _in_tx_with_ddl := false, _tx_error := false,
    _config_before_tx := 0, _modaliases_before_tx := 0 }

/-- A sample view inside a transaction that has executed DDL. -/
def exTxView : DatabaseConnectionView :=
  { exView with _in_tx := true, _txid := some 1, _in_tx_with_ddl := true }

/-!
Theorems.  First the generic cache lemmas, then the claims in order.
-/

theorem cacheGet_cacheSet_self (c : QueryCache) (k : CacheKey) (v : QueryUnit) :
    cacheGet (cacheSet c k v) k = some v := by
  induction c with
  | nil => simp [cacheSet, cacheGet]
  | cons p rest ih =>
      obtain ⟨pk, pv⟩ := p
      by_cases h : pk = k <;> simp [cacheSet, cacheGet, h, ih]

theorem cacheGet_cacheSet_ne (c : QueryCache) (k k' : CacheKey) (v : QueryUnit)
    (h : k' ≠ k) : cacheGet (cacheSet c k v) k' = cacheGet c k' := by
  have h2 : ¬ (k = k') := fun e => h e.symm
  induction c with
  | nil => simp [cacheSet, cacheGet, h2]
  | cons p rest ih =>
      obtain ⟨pk, pv⟩ := p
      by_cases hk : pk = k
      · subst hk
        simp [cacheSet, cacheGet, h2]
      · simp [cacheSet, cacheGet, hk, ih]

/-- One `Database._cache_compiled_query` step never lowers the `dbver` stamp
cached under any key, and never removes an entry. -/
theorem cache_step_mono (db db' : Database) (k : CacheKey) (c : QueryUnit)
    (h : Database._cache_compiled_query db k c = .ok db') (key : CacheKey)
    (e : QueryUnit) (he : cacheGet db._eql_to_compiled key = some e) :
    ∃ e2, cacheGet db'._eql_to_compiled key = some e2 ∧ e.dbver ≤ e2.dbver := by
  unfold Database._cache_compiled_query at h
  split at h
  · cases h
  · split at h
    next existing hex =>
      split at h
      · cases h
        exact ⟨e, he, le_refl _⟩
      · next hgt =>
          cases h
          by_cases hkey : key = k
          · subst hkey
            have heq : e = existing := Option.some_inj.mp (he.symm.trans hex)
            subst heq
            exact ⟨c, cacheGet_cacheSet_self _ _ _, by omega⟩
          · exact ⟨e, by
              simpa [cacheGet_cacheSet_ne _ _ _ _ hkey] using he, le_refl _⟩
    next hex =>
      cases h
      by_cases hkey : key = k
      · subst hkey
        rw [he] at hex
        cases hex
      · exact ⟨e, by
          simpa [cacheGet_cacheSet_ne _ _ _ _ hkey] using he, le_refl _⟩

/-- Trace version of `cache_step_mono`. -/
theorem cacheRun_mono (ops : List (CacheKey × QueryUnit)) :
    ∀ (db db' : Database), Database.cacheRun db ops = .ok db' →
    ∀ (key : CacheKey) (e : QueryUnit),
      cacheGet db._eql_to_compiled key = some e →
      ∃ e2, cacheGet db'._eql_to_compiled key = some e2 ∧
        e.dbver ≤ e2.dbver := by
  induction ops with
  | nil =>
      intro db db' h key e he
      unfold Database.cacheRun at h
      cases h
      exact ⟨e, he, le_refl _⟩
  | cons op rest ih =>
      obtain ⟨k, c⟩ := op
      intro db db' h key e he
      unfold Database.cacheRun at h
      split at h
      next db2 hstep =>
        obtain ⟨e2, he2, hle⟩ := cache_step_mono db db2 k c hstep key e he
        obtain ⟨e3, he3, hle2⟩ := ih db2 db' h key e2 he2
        exact ⟨e3, he3, le_trans hle hle2⟩
      next e' hstep => cases h

/-- C10: `Database._cache_compiled_query` leaves the shared cache unchanged
when the entry already cached under the key carries a strictly greater
`dbver` stamp, stores the new unit otherwise, and consequently (between two
clears, modelled as a run of insertions) the `dbver` stamp cached under a
given key never decreases. -/
theorem c10_cache_dbver_monotone :
    (∀ (db : Database) (key : CacheKey) (c e : QueryUnit),
       c.is_preparable = true →
       cacheGet db._eql_to_compiled key = some e → e.dbver > c.dbver →
       Database._cache_compiled_query db key c = .ok db) ∧
    (∀ (db : Database) (key : CacheKey) (c : QueryUnit),
       c.is_preparable = true →
       (∀ e, cacheGet db._eql_to_compiled key = some e → e.dbver ≤ c.dbver) →
       ∃ db', Database._cache_compiled_query db key c = .ok db' ∧
         cacheGet db'._eql_to_compiled key = some c) ∧
    (∀ (db : Database) (ops : List (CacheKey × QueryUnit)) (db' : Database)
       (key : CacheKey) (e : QueryUnit),
       Database.cacheRun db ops = .ok db' →
       cacheGet db._eql_to_compiled key = some e →
       ∃ e2, cacheGet db'._eql_to_compiled key = some e2 ∧
         e.dbver ≤ e2.dbver) := by
  refine ⟨?_, ?_, ?_⟩
  · intro db key c e hp he hgt
    simp [Database._cache_compiled_query, hp, he, hgt]
  · intro db key c hp hle
    refine ⟨{ db with _eql_to_compiled := cacheSet db._eql_to_compiled key c }, ?_, cacheGet_cacheSet_self _ _ _⟩
    rcases he : cacheGet db._eql_to_compiled key with _ | e
    · simp [Database._cache_compiled_query, hp, he]
    · have : ¬ e.dbver > c.dbver := by have := hle e he; omega
      simp [Database._cache_compiled_query, hp, he, this]
  · intro db ops db' key e h he
    exact cacheRun_mono ops db db' h key e he

/-- Witness for C10 at concrete inputs: an entry stamped 5 survives an
insertion stamped 3 unchanged, is overwritten by an insertion stamped 7, and
a run of both insertions never lowers the stamp under the key. -/
theorem c10_witness :
    (exUnit 3).is_preparable = true ∧
    cacheGet exDb._eql_to_compiled (1, false, 0, 0) = some (exUnit 5) ∧
    (exUnit 5).dbver > (exUnit 3).dbver ∧
    Database._cache_compiled_query exDb (1, false, 0, 0) (exUnit 3) =
      .ok exDb ∧
    (∃ db', Database._cache_compiled_query exDb (1, false, 0, 0) (exUnit 7) =
       .ok db' ∧ cacheGet db'._eql_to_compiled (1, false, 0, 0) =
         some (exUnit 7)) ∧
    (∃ e2, cacheGet ({ _name := 0, _dbver := 5, _eql_to_compiled := [((1, false, 0, 0), exUnit 7)] } : Database)._eql_to_compiled (1, false, 0, 0) = some e2 ∧
       (exUnit 5).dbver ≤ e2.dbver) := by
  refine ⟨by decide, by decide, by decide, ?_, ?_, ?_⟩
  · exact c10_cache_dbver_monotone.1 exDb (1, false, 0, 0) (exUnit 3)
      (exUnit 5) (by decide) (by decide) (by decide)
  · exact c10_cache_dbver_monotone.2.1 exDb (1, false, 0, 0) (exUnit 7)
      (by decide) (by intro e he; rw [show cacheGet exDb._eql_to_compiled (1, false, 0, 0) = some (exUnit 5) from by decide] at he; cases he; decide)
  · exact c10_cache_dbver_monotone.2.2 exDb
      [((1, false, 0, 0), exUnit 3), ((1, false, 0, 0), exUnit 7)]
      { _name := 0, _dbver := 5, _eql_to_compiled := [((1, false, 0, 0), exUnit 7)] }
      (1, false, 0, 0) (exUnit 5) (by rfl) (by decide)

namespace DatabaseConnectionView

/-- `start` of a plain unit (no poisoned transaction, not starting a
transaction, session outside a transaction) leaves the view unchanged. -/
theorem start_plain (s : DatabaseConnectionView) (qu : QueryUnit)
    (he : s._tx_error = false) (hst : qu.starts_tx = false)
    (hit : s._in_tx = false) : s.start qu = .ok s := by
  simp [start, he, hst, hit]

/-- C1: with the session outside a DDL transaction and unpoisoned, a
shared-cache lookup returns a unit only when its `dbver` stamp equals the
current database version; and after a successful non-transactional DDL unit
(which advances `dbver` and clears the shared cache) every lookup returns
absent. -/
theorem c1_lookup_dbver_gate :
    (∀ (s : DatabaseConnectionView) (eql : Nat) (jm : Bool) (u : QueryUnit),
       s._in_tx_with_ddl = false → s._tx_error = false →
       s.lookup_compiled_query eql jm = some u → u.dbver = s._db._dbver) ∧
    (∀ (s : DatabaseConnectionView) (qu : QueryUnit)
       (s' : DatabaseConnectionView) (eql : Nat) (jm : Bool),
       s._in_tx = false → s._in_tx_with_ddl = false → s._tx_error = false →
       qu.has_ddl = true → qu.starts_tx = false → qu.commits_tx = false →
       qu.rollbacks_tx = false →
       s.execUnit qu = .ok s' →
       s._db._dbver < s'._db._dbver ∧
       s'.lookup_compiled_query eql jm = none) := by
  constructor
  · intro s eql jm u hddl herr hlook
    unfold lookup_compiled_query at hlook
    simp only [herr, hddl, Bool.false_eq_true, if_false] at hlook
    split at hlook
    next compiled hc =>
      split at hlook
      · cases hlook
      · next hne =>
          cases hlook
          exact Decidable.not_not.mp hne
    next hc => cases hlook
  · intro s qu s' eql jm hit hddl herr hq hst hc hr hexec
    unfold execUnit at hexec
    rw [start_plain s qu herr hst hit] at hexec
    unfold on_success at hexec
    simp only [hq, hit, hc, hr, Bool.true_or, if_true, Bool.false_eq_true,
      if_false, Bool.not_false, Bool.and_true, Bool.true_and,
      _invalidate_local_cache] at hexec
    rcases hqc : qu.config with _ | cv <;> rcases hqm : qu.modaliases with _ | mv <;>
      rw [hqc, hqm] at hexec <;>
      simp only [] at hexec <;>
      [skip; skip; skip; skip] <;>
      first
      | (cases hexec
         constructor
         · simp [resnapshot, Database._signal_ddl, Database._invalidate_caches]
         · simp [lookup_compiled_query, resnapshot, herr, hddl,
             Database._signal_ddl, Database._invalidate_caches, cacheGet])

/-- Witness for C1: on `exView` the cached unit stamped 5 is returned while
`dbver = 5`; executing a non-transactional DDL unit advances `dbver` to 6 and
the same lookup then returns absent. -/
theorem c1_witness :
    exView.lookup_compiled_query 1 false = some (exUnit 5) ∧
    (exUnit 5).dbver = exView._db._dbver ∧
    exView.execUnit { exUnit 0 with has_ddl := true } =
      .ok { exView with _db := { _name := 0, _dbver := 6, _eql_to_compiled := [] } } ∧
    exView._db._dbver <
      ({ exView with _db := { _name := 0, _dbver := 6, _eql_to_compiled := [] } } :
        DatabaseConnectionView)._db._dbver ∧
    DatabaseConnectionView.lookup_compiled_query
      { exView with _db := { _name := 0, _dbver := 6, _eql_to_compiled := [] } }
      1 false = none := by
  have hexec : exView.execUnit { exUnit 0 with has_ddl := true } =
      .ok { exView with _db := { _name := 0, _dbver := 6, _eql_to_compiled := [] } } := by
    rfl
  have h2 := c1_lookup_dbver_gate.2 exView { exUnit 0 with has_ddl := true }
    { exView with _db := { _name := 0, _dbver := 6, _eql_to_compiled := [] } }
    1 false (by decide) (by decide) (by decide) (by decide) (by decide)
    (by decide) (by decide) hexec
  have h1 := c1_lookup_dbver_gate.1 exView 1 false (exUnit 5)
    (by decide) (by decide) (by decide)
  exact ⟨by decide, h1, hexec, h2.1, h2.2⟩

/-- Shape of every normal completion of `start`: the database, caches,
config/aliases and their snapshots are untouched, the poison flag is clear
(the gate either found it clear or cleared it on the rollback path), and the
transaction fields are updated as the source prescribes. -/
theorem start_ok_shape (s : DatabaseConnectionView) (qu : QueryUnit)
    (s' : DatabaseConnectionView) (hok : s.start qu = .ok s') :
    s'._db = s._db ∧ s'._user = s._user ∧ s'._config = s._config ∧
    s'._modaliases = s._modaliases ∧
    s'._eql_to_compiled = s._eql_to_compiled ∧
    s'._config_before_tx = s._config_before_tx ∧
    s'._modaliases_before_tx = s._modaliases_before_tx ∧
    s'._tx_error = false ∧
    s'._in_tx = (s._in_tx || qu.starts_tx) ∧
    s'._in_tx_with_ddl =
      (s._in_tx_with_ddl || ((s._in_tx || qu.starts_tx) && qu.has_ddl)) ∧
    s'._txid = (if qu.starts_tx then qu.txid else s._txid) := by
  unfold start at hok
  cases h1 : s._tx_error <;> rw [h1] at hok <;>
  cases h2 : qu.savepoint_rollbacks <;> rw [h2] at hok <;>
  cases h3 : qu.rollbacks_tx <;> rw [h3] at hok <;>
  cases h4 : qu.starts_tx <;> rw [h4] at hok <;>
  cases h5 : qu.is_preparable <;> rw [h5] at hok <;>
  cases h6 : s._in_tx <;> rw [h6] at hok <;>
  cases h7 : qu.has_ddl <;> rw [h7] at hok <;>
  simp only [Bool.and_true, Bool.and_false, Bool.true_and, Bool.false_and,
    Bool.or_true, Bool.or_false, Bool.true_or, Bool.false_or,
    Bool.not_true, Bool.not_false, if_true, if_false,
    Bool.true_eq_false, Bool.false_eq_true] at hok
  all_goals (try (split at hok))
  all_goals (try (cases hok))
  all_goals simp_all

/-- C3: after `on_error` inside a transaction every lookup is absent (the
poison flag short-circuits `lookup_compiled_query`); `start` of a unit that is
neither a savepoint rollback nor a full rollback raises the transaction-
aborted error with the view unmutated; `start` of a rollback unit clears the
poison flag. -/
theorem c3_tx_error_gating :
    (∀ (s : DatabaseConnectionView) (qu : QueryUnit) (eql : Nat) (jm : Bool),
       s._in_tx = true →
       (s.on_error qu).lookup_compiled_query eql jm = none) ∧
    (∀ (s : DatabaseConnectionView) (eql : Nat) (jm : Bool),
       s._tx_error = true → s.lookup_compiled_query eql jm = none) ∧
    (∀ (s : DatabaseConnectionView) (qu : QueryUnit),
       s._tx_error = true → qu.savepoint_rollbacks = false →
       qu.rollbacks_tx = false →
       s.start qu = .error (.transactionError
         "current transaction is aborted, commands ignored until end of transaction block",
         s)) ∧
    (∀ (s : DatabaseConnectionView) (qu : QueryUnit)
       (s' : DatabaseConnectionView),
       s._tx_error = true →
       (qu.rollbacks_tx = true ∨ qu.savepoint_rollbacks = true) →
       s.start qu = .ok s' → s'._tx_error = false) := by
  refine ⟨?_, ?_, ?_, ?_⟩
  · intro s qu eql jm h
    simp [on_error, tx_error, lookup_compiled_query, h]
  · intro s eql jm h
    simp [lookup_compiled_query, h]
  · intro s qu h h1 h2
    simp [start, h, h1, h2]
  · intro s qu s' h hq hok
    exact (start_ok_shape s qu s' hok).2.2.2.2.2.2.2.1

/-- Witness for C3 at concrete inputs: a poisoned in-transaction view returns
absent on lookup, rejects a plain unit with the transaction-aborted error
without mutation, and a rollback unit clears the flag. -/
theorem c3_witness :
    (({ exView with _in_tx := true, _txid := some 1 } :
        DatabaseConnectionView)._in_tx = true ∧
     (DatabaseConnectionView.on_error
        { exView with _in_tx := true, _txid := some 1 }
        (exUnit 0)).lookup_compiled_query 1 false = none) ∧
    (DatabaseConnectionView.lookup_compiled_query
       { exView with _in_tx := true, _txid := some 1, _tx_error := true }
       1 false = none) ∧
    (DatabaseConnectionView.start
       { exView with _in_tx := true, _txid := some 1, _tx_error := true }
       (exUnit 0) =
     .error (.transactionError
       "current transaction is aborted, commands ignored until end of transaction block",
       { exView with _in_tx := true, _txid := some 1, _tx_error := true })) ∧
    (DatabaseConnectionView.start
       { exView with _in_tx := true, _txid := some 1, _tx_error := true }
       { exUnit 0 with rollbacks_tx := true } =
       .ok { exView with _in_tx := true, _txid := some 1 } ∧
     ({ exView with _in_tx := true, _txid := some 1 } :
        DatabaseConnectionView)._tx_error = false) := by
  refine ⟨⟨by decide, ?_⟩, ?_, ?_, ?_, ?_⟩
  · exact c3_tx_error_gating.1 { exView with _in_tx := true, _txid := some 1 }
      (exUnit 0) 1 false (by decide)
  · exact c3_tx_error_gating.2.1
      { exView with _in_tx := true, _txid := some 1, _tx_error := true }
      1 false (by decide)
  · exact c3_tx_error_gating.2.2.1
      { exView with _in_tx := true, _txid := some 1, _tx_error := true }
      (exUnit 0) (by decide) (by decide) (by decide)
  · rfl
  · exact c3_tx_error_gating.2.2.2
      { exView with _in_tx := true, _txid := some 1, _tx_error := true }
      { exUnit 0 with rollbacks_tx := true }
      { exView with _in_tx := true, _txid := some 1 }
      (by decide) (Or.inl (by decide)) (by rfl)

/-- Shape of a normal `on_success` completion for an in-transaction unit that
neither commits nor rolls back: the shared database, the transaction fields
and the pre-transaction snapshots are all untouched (only the config/alias
overlays and the local cache may change). -/
theorem on_success_in_tx_shape (s : DatabaseConnectionView) (qu : QueryUnit)
    (s' : DatabaseConnectionView) (hit : s._in_tx = true)
    (hc : qu.commits_tx = false) (hr : qu.rollbacks_tx = false)
    (hok : s.on_success qu = .ok s') :
    s'._db = s._db ∧ s'._user = s._user ∧ s'._in_tx = true ∧
    s'._in_tx_with_ddl = s._in_tx_with_ddl ∧ s'._tx_error = s._tx_error ∧
    s'._txid = s._txid ∧
    s'._config_before_tx = s._config_before_tx ∧
    s'._modaliases_before_tx = s._modaliases_before_tx := by
  unfold on_success at hok
  cases h7 : qu.has_ddl <;> rw [h7] at hok <;>
  cases h8 : s._in_tx_with_ddl <;> rw [h8] at hok <;>
  cases h2 : qu.savepoint_rollbacks <;> rw [h2] at hok <;>
  rcases hqc : qu.config with _ | cv <;> rw [hqc] at hok <;>
  rcases hqm : qu.modaliases with _ | mv <;> rw [hqm] at hok <;>
  simp only [hit, hc, hr, Bool.and_true, Bool.and_false, Bool.true_and,
    Bool.false_and, Bool.or_true, Bool.or_false, Bool.true_or, Bool.false_or,
    Bool.not_true, Bool.not_false, if_true, if_false,
    Bool.true_eq_false, Bool.false_eq_true,
    _invalidate_local_cache, resnapshot] at hok
  all_goals (try (cases hok))
  all_goals simp_all

/-- Shape of a normal `on_success` completion for a committing unit: the
transaction state is reset to baseline, the snapshots are re-synced, and the
database version is advanced (with the shared cache cleared) exactly when the
transaction contained DDL. -/
theorem on_success_commit_shape (s : DatabaseConnectionView) (qu : QueryUnit)
    (s' : DatabaseConnectionView) (hit : s._in_tx = true)
    (hc : qu.commits_tx = true) (hok : s.on_success qu = .ok s') :
    (s._in_tx_with_ddl = true →
       s'._db._dbver = s._db._dbver + 1 ∧ s'._db._eql_to_compiled = []) ∧
    (s._in_tx_with_ddl = false → s'._db = s._db) ∧
    s'._in_tx = false ∧ s'._txid = none ∧ s'._in_tx_with_ddl = false ∧
    s'._tx_error = false ∧ s'._eql_to_compiled = [] ∧
    s'._config_before_tx = s'._config ∧
    s'._modaliases_before_tx = s'._modaliases := by
  unfold on_success at hok
  cases h7 : qu.has_ddl <;> rw [h7] at hok <;>
  cases h8 : s._in_tx_with_ddl <;> rw [h8] at hok <;>
  cases h2 : qu.savepoint_rollbacks <;> rw [h2] at hok <;>
  rcases hqc : qu.config with _ | cv <;> rw [hqc] at hok <;>
  rcases hqm : qu.modaliases with _ | mv <;> rw [hqm] at hok <;>
  simp only [hit, hc, Bool.and_true, Bool.and_false, Bool.true_and,
    Bool.false_and, Bool.or_true, Bool.or_false, Bool.true_or, Bool.false_or,
    Bool.not_true, Bool.not_false, if_true, if_false,
    Bool.true_eq_false, Bool.false_eq_true,
    _invalidate_local_cache, _reset_tx_state, resnapshot,
    Database._signal_ddl, Database._invalidate_caches] at hok
  all_goals (try (cases hok))
  all_goals simp_all

/-- One executed in-transaction unit that neither commits nor rolls back
leaves the shared database and the pre-transaction snapshots untouched and
keeps the transaction open. -/
theorem execUnit_in_tx_shape (s : DatabaseConnectionView) (qu : QueryUnit)
    (s' : DatabaseConnectionView) (hit : s._in_tx = true)
    (hc : qu.commits_tx = false) (hr : qu.rollbacks_tx = false)
    (hok : s.execUnit qu = .ok s') :
    s'._db = s._db ∧ s'._in_tx = true ∧
    s'._config_before_tx = s._config_before_tx ∧
    s'._modaliases_before_tx = s._modaliases_before_tx := by
  unfold execUnit at hok
  split at hok
  next s1 hstart =>
    obtain ⟨hdb, _, _, _, _, hcb, hmb, _, hintx, _, _⟩ :=
      start_ok_shape s qu s1 hstart
    have hit1 : s1._in_tx = true := by rw [hintx, hit]; simp
    obtain ⟨hdb2, _, hit2, _, _, _, hcb2, hmb2⟩ :=
      on_success_in_tx_shape s1 qu s' hit1 hc hr hok
    exact ⟨hdb2.trans hdb, hit2, hcb2.trans hcb, hmb2.trans hmb⟩
  next e hstart => cases hok

/-- Trace version of `execUnit_in_tx_shape`. -/
theorem execUnits_in_tx_shape (qus : List QueryUnit) :
    ∀ (s s' : DatabaseConnectionView), s._in_tx = true →
    (∀ qu ∈ qus, qu.commits_tx = false ∧ qu.rollbacks_tx = false) →
    s.execUnits qus = .ok s' →
    s'._db = s._db ∧ s'._in_tx = true ∧
    s'._config_before_tx = s._config_before_tx ∧
    s'._modaliases_before_tx = s._modaliases_before_tx := by
  induction qus with
  | nil =>
      intro s s' hit hq hok
      unfold execUnits at hok
      cases hok
      exact ⟨rfl, hit, rfl, rfl⟩
  | cons qu qus ih =>
      intro s s' hit hq hok
      unfold execUnits at hok
      split at hok
      next s1 hstep =>
        obtain ⟨h1, h2, h3, h4⟩ := execUnit_in_tx_shape s qu s1 hit
          (hq qu (by simp)).1 (hq qu (by simp)).2 hstep
        obtain ⟨g1, g2, g3, g4⟩ := ih s1 s'
          h2 (fun u hu => hq u (by simp [hu])) hok
        exact ⟨g1.trans h1, g2, g3.trans h3, g4.trans h4⟩
      next e hstep => cases hok

/-- C2: while a session is inside a transaction, no successful unit that does
not commit (nor roll back) the transaction touches the owning database — its
`dbver` and shared cache are unchanged — and when a committing unit completes
via `on_success`, the database version is advanced and the shared cache
cleared exactly when the transaction contained DDL, with the session reset to
baseline. -/
theorem c2_ddl_deferred_to_commit :
    (∀ (s : DatabaseConnectionView) (qus : List QueryUnit)
       (s' : DatabaseConnectionView),
       s._in_tx = true →
       (∀ qu ∈ qus, qu.commits_tx = false ∧ qu.rollbacks_tx = false) →
       s.execUnits qus = .ok s' →
       s'._db = s._db ∧ s'._in_tx = true) ∧
    (∀ (s : DatabaseConnectionView) (qu : QueryUnit)
       (s' : DatabaseConnectionView),
       s._in_tx = true → qu.commits_tx = true →
       s.on_success qu = .ok s' →
       (s._in_tx_with_ddl = true →
          s._db._dbver < s'._db._dbver ∧ s'._db._eql_to_compiled = []) ∧
       (s._in_tx_with_ddl = false → s'._db = s._db) ∧
       s'._in_tx = false ∧ s'._txid = none ∧ s'._in_tx_with_ddl = false ∧
       s'._tx_error = false ∧ s'._eql_to_compiled = [] ∧
       s'._config_before_tx = s'._config ∧
       s'._modaliases_before_tx = s'._modaliases) := by
  constructor
  · intro s qus s' hit hq hok
    obtain ⟨h1, h2, _, _⟩ := execUnits_in_tx_shape qus s s' hit hq hok
    exact ⟨h1, h2⟩
  · intro s qu s' hit hc hok
    obtain ⟨hddl, hnoddl, h3, h4, h5, h6, h7, h8, h9⟩ :=
      on_success_commit_shape s qu s' hit hc hok
    exact ⟨fun h => ⟨by have := (hddl h).1; omega, (hddl h).2⟩,
      hnoddl, h3, h4, h5, h6, h7, h8, h9⟩

/-- Witness for C2 at concrete inputs: an in-transaction DDL unit leaves the
database at version 5 with its cache intact, and the committing unit advances
it to 6 and resets the session to baseline. -/
theorem c2_witness :
    (exTxView.execUnits [{ exUnit 0 with has_ddl := true }] = .ok exTxView ∧
     exTxView._db = exTxView._db ∧ exTxView._in_tx = true) ∧
    (exTxView.on_success { exUnit 0 with commits_tx := true } =
       .ok { exView with _db := { _name := 0, _dbver := 6, _eql_to_compiled := [] } } ∧
     exTxView._db._dbver <
       ({ exView with _db := { _name := 0, _dbver := 6, _eql_to_compiled := [] } } :
         DatabaseConnectionView)._db._dbver ∧
     ({ exView with _db := { _name := 0, _dbver := 6, _eql_to_compiled := [] } } :
         DatabaseConnectionView)._db._eql_to_compiled = [] ∧
     ({ exView with _db := { _name := 0, _dbver := 6, _eql_to_compiled := [] } } :
         DatabaseConnectionView)._in_tx = false) := by
  have hexec : exTxView.execUnits [{ exUnit 0 with has_ddl := true }] =
      .ok exTxView := by rfl
  have hcommit : exTxView.on_success { exUnit 0 with commits_tx := true } =
      .ok { exView with _db := { _name := 0, _dbver := 6, _eql_to_compiled := [] } } := by
    rfl
  have h1 := c2_ddl_deferred_to_commit.1 exTxView
    [{ exUnit 0 with has_ddl := true }] exTxView (by decide)
    (by intro qu hqu
        rw [List.mem_singleton] at hqu
        subst hqu
        exact ⟨rfl, rfl⟩)
    hexec
  have h2 := c2_ddl_deferred_to_commit.2 exTxView
    { exUnit 0 with commits_tx := true }
    { exView with _db := { _name := 0, _dbver := 6, _eql_to_compiled := [] } }
    (by decide) (by decide) hcommit
  exact ⟨⟨hexec, h1.1, h1.2⟩,
    hcommit, (h2.1 (by decide)).1, (h2.1 (by decide)).2, h2.2.2.1⟩

/-- Shape of a normal `abort_tx` completion: config/aliases are restored from
the pre-transaction snapshots and the transaction state is reset. -/
theorem abort_tx_ok_shape (s s' : DatabaseConnectionView)
    (hit : s._in_tx = true) (hok : s.abort_tx = .ok s') :
    s'._config = s._config_before_tx ∧
    s'._modaliases = s._modaliases_before_tx ∧ s'._in_tx = false ∧
    s'._txid = none ∧ s'._tx_error = false ∧ s'._in_tx_with_ddl = false ∧
    s'._config_before_tx = s._config_before_tx ∧
    s'._modaliases_before_tx = s._modaliases_before_tx := by
  unfold abort_tx at hok
  rw [hit] at hok
  simp only [Bool.not_true, Bool.false_eq_true, if_false] at hok
  cases hok
  simp [_reset_tx_state, _invalidate_local_cache]

/-- C4: after starting a transaction from a snapshot-synced state and running
any sequence of in-transaction units (none committing or rolling back),
`abort_tx` restores `config` and `modaliases` to exactly the values held
before the transaction began; `abort_tx` outside a transaction raises
InternalServerError and leaves the view unchanged (the error carries the
untouched state). -/
theorem c4_abort_restores :
    (∀ (s0 : DatabaseConnectionView) (q0 : QueryUnit) (qus : List QueryUnit)
       (s1 s2 s3 : DatabaseConnectionView),
       s0._config_before_tx = s0._config →
       s0._modaliases_before_tx = s0._modaliases →
       q0.starts_tx = true → q0.commits_tx = false → q0.rollbacks_tx = false →
       (∀ qu ∈ qus, qu.commits_tx = false ∧ qu.rollbacks_tx = false) →
       s0.execUnit q0 = .ok s1 →
       s1.execUnits qus = .ok s2 →
       s2.abort_tx = .ok s3 →
       s3._config = s0._config ∧ s3._modaliases = s0._modaliases) ∧
    (∀ s : DatabaseConnectionView, s._in_tx = false →
       s.abort_tx =
         .error (.internalServerError "abort_tx(): not in transaction", s)) := by
  constructor
  · intro s0 q0 qus s1 s2 s3 hcb hmb hst hc0 hr0 hqs hex0 hexs habort
    unfold execUnit at hex0
    split at hex0
    next sA hstart =>
      obtain ⟨_, _, _, _, _, gcb, gmb, _, gintx, _, _⟩ :=
        start_ok_shape s0 q0 sA hstart
      have hitA : sA._in_tx = true := by rw [gintx, hst]; simp
      obtain ⟨_, _, hit1, _, _, _, fcb, fmb⟩ :=
        on_success_in_tx_shape sA q0 s1 hitA hc0 hr0 hex0
      obtain ⟨_, hit2, ecb, emb⟩ := execUnits_in_tx_shape qus s1 s2 hit1 hqs hexs
      obtain ⟨a1, a2, _, _, _, _, _, _⟩ := abort_tx_ok_shape s2 s3 hit2 habort
      constructor
      · rw [a1, ecb, fcb, gcb, hcb]
      · rw [a2, emb, fmb, gmb, hmb]
    next e hstart => cases hex0
  · intro s hit
    simp [abort_tx, hit]

/-- Witness for C4 at concrete inputs: start a transaction, apply a config
delta (7) and an alias delta (9) in-transaction, abort, and observe the
original values (0) restored; aborting the baseline view raises. -/
theorem c4_witness :
    (exView.execUnit { exUnit 0 with is_preparable := false, starts_tx := true, txid := some 1 } =
       .ok { exView with _in_tx := true, _txid := some 1 } ∧
     DatabaseConnectionView.execUnits { exView with _in_tx := true, _txid := some 1 }
       [{ exUnit 0 with config := some 7, modaliases := some 9 }] =
       .ok { exView with _in_tx := true, _txid := some 1, _config := 7, _modaliases := 9 } ∧
     DatabaseConnectionView.abort_tx
       { exView with _in_tx := true, _txid := some 1, _config := 7, _modaliases := 9 } =
       .ok exView ∧
     exView._config = 0 ∧ exView._modaliases = 0) ∧
    (exView.abort_tx =
       .error (.internalServerError "abort_tx(): not in transaction", exView)) := by
  have h1 := c4_abort_restores.1 exView
    { exUnit 0 with is_preparable := false, starts_tx := true, txid := some 1 }
    [{ exUnit 0 with config := some 7, modaliases := some 9 }]
    { exView with _in_tx := true, _txid := some 1 }
    { exView with _in_tx := true, _txid := some 1, _config := 7, _modaliases := 9 }
    exView
    (by decide) (by decide) (by decide) (by decide) (by decide)
    (by intro qu hqu
        rw [List.mem_singleton] at hqu
        subst hqu
        exact ⟨rfl, rfl⟩)
    (by rfl) (by rfl) (by rfl)
  exact ⟨⟨by rfl, by rfl, by rfl, h1.1, h1.2⟩,
    c4_abort_restores.2 exView (by decide)⟩

/-- Shape of a normal `on_success` completion for an in-transaction rollback
unit: the transaction state is reset to baseline. -/
theorem on_success_rollback_shape (s : DatabaseConnectionView) (qu : QueryUnit)
    (s' : DatabaseConnectionView) (hit : s._in_tx = true)
    (hc : qu.commits_tx = false) (hr : qu.rollbacks_tx = true)
    (hok : s.on_success qu = .ok s') :
    s'._in_tx = false ∧ s'._txid = none ∧ s'._tx_error = false ∧
    s'._in_tx_with_ddl = false ∧
    s'._config_before_tx = s'._config ∧
    s'._modaliases_before_tx = s'._modaliases := by
  unfold on_success at hok
  cases h7 : qu.has_ddl <;> rw [h7] at hok <;>
  cases h8 : s._in_tx_with_ddl <;> rw [h8] at hok <;>
  cases h2 : qu.savepoint_rollbacks <;> rw [h2] at hok <;>
  rcases hqc : qu.config with _ | cv <;> rw [hqc] at hok <;>
  rcases hqm : qu.modaliases with _ | mv <;> rw [hqm] at hok <;>
  simp only [hit, hc, hr, Bool.and_true, Bool.and_false, Bool.true_and,
    Bool.false_and, Bool.or_true, Bool.or_false, Bool.true_or, Bool.false_or,
    Bool.not_true, Bool.not_false, if_true, if_false,
    Bool.true_eq_false, Bool.false_eq_true,
    _invalidate_local_cache, _reset_tx_state, resnapshot,
    Database._signal_ddl, Database._invalidate_caches] at hok
  all_goals (try (split at hok))
  all_goals (try (split at hok))
  all_goals (try (cases hok))
  all_goals simp_all

/-- Shape of a normal `on_success` completion outside a transaction: the
session stays outside, the poison flag and transaction id are untouched, and
the final re-snapshot syncs the pre-transaction snapshots with the (possibly
updated) config/aliases. -/
theorem on_success_outside_shape (s : DatabaseConnectionView) (qu : QueryUnit)
    (s' : DatabaseConnectionView) (hit : s._in_tx = false)
    (hok : s.on_success qu = .ok s') :
    s'._in_tx = false ∧ s'._tx_error = s._tx_error ∧ s'._txid = s._txid ∧
    s'._config_before_tx = s'._config ∧
    s'._modaliases_before_tx = s'._modaliases := by
  unfold on_success at hok
  cases hc : qu.commits_tx <;> rw [hc] at hok <;>
  cases hr : qu.rollbacks_tx <;> rw [hr] at hok <;>
  cases h7 : qu.has_ddl <;> rw [h7] at hok <;>
  cases h8 : s._in_tx_with_ddl <;> rw [h8] at hok <;>
  cases h2 : qu.savepoint_rollbacks <;> rw [h2] at hok <;>
  rcases hqc : qu.config with _ | cv <;> rw [hqc] at hok <;>
  rcases hqm : qu.modaliases with _ | mv <;> rw [hqm] at hok <;>
  simp only [hit, Bool.and_true, Bool.and_false, Bool.true_and,
    Bool.false_and, Bool.or_true, Bool.or_false, Bool.true_or, Bool.false_or,
    Bool.not_true, Bool.not_false, if_true, if_false,
    Bool.true_eq_false, Bool.false_eq_true,
    _invalidate_local_cache, _reset_tx_state, resnapshot,
    Database._signal_ddl, Database._invalidate_caches] at hok
  all_goals (try (split at hok))
  all_goals (try (cases hok))
  all_goals simp_all

/-- `on_success` preserves the baseline invariant on every normal
completion. -/
theorem on_success_ok_inv (s : DatabaseConnectionView) (qu : QueryUnit)
    (s' : DatabaseConnectionView) (hinv : baselineInv s)
    (hok : s.on_success qu = .ok s') : baselineInv s' := by
  unfold baselineInv at hinv ⊢
  cases hit : s._in_tx
  · obtain ⟨h1, h2, h3, h4⟩ := hinv hit
    obtain ⟨g1, g2, g3, g4, g5⟩ := on_success_outside_shape s qu s' hit hok
    intro _
    exact ⟨g2.trans h1, g3.trans h2, g4, g5⟩
  · cases hc : qu.commits_tx
    · cases hr : qu.rollbacks_tx
      · obtain ⟨_, _, hin, _⟩ := on_success_in_tx_shape s qu s' hit hc hr hok
        intro hcontra
        rw [hin] at hcontra
        cases hcontra
      · obtain ⟨g1, g2, g3, g4, g5, g6⟩ :=
          on_success_rollback_shape s qu s' hit hc hr hok
        intro _
        exact ⟨g3, g2, g5, g6⟩
    · obtain ⟨_, _, g3, g4, g5, g6, g7, g8, g9⟩ :=
        on_success_commit_shape s qu s' hit hc hok
      intro _
      exact ⟨g6, g4, g8, g9⟩

/-- C5: every operation on a connection view that completes normally
preserves the baseline invariant: outside a transaction the poison flag is
clear, no transaction id is held, and the snapshots match the current
config/aliases. -/
theorem c5_invariant_preserved :
    (∀ (db : Database) (user : Nat), baselineInv (init db user)) ∧
    (∀ (s : DatabaseConnectionView) (qu : QueryUnit)
       (s' : DatabaseConnectionView),
       baselineInv s → s.start qu = .ok s' → baselineInv s') ∧
    (∀ (s : DatabaseConnectionView) (qu : QueryUnit),
       baselineInv s → baselineInv (s.on_error qu)) ∧
    (∀ (s : DatabaseConnectionView) (qu : QueryUnit)
       (s' : DatabaseConnectionView),
       baselineInv s → s.on_success qu = .ok s' → baselineInv s') ∧
    (∀ (s s' : DatabaseConnectionView),
       s.abort_tx = .ok s' → baselineInv s') ∧
    (∀ s : DatabaseConnectionView, baselineInv s.rollback) := by
  refine ⟨?_, ?_, ?_, ?_, ?_, ?_⟩
  · intro db user
    simp [baselineInv, init, _reset_tx_state, _invalidate_local_cache]
  · intro s qu s' hinv hok
    unfold baselineInv at hinv ⊢
    obtain ⟨_, _, gc, gm, _, gcb, gmb, gerr, gin, _, gtx⟩ :=
      start_ok_shape s qu s' hok
    intro hit'
    rw [gin] at hit'
    obtain ⟨hs, hq⟩ := Bool.or_eq_false_iff.mp hit'
    obtain ⟨h1, h2, h3, h4⟩ := hinv hs
    refine ⟨gerr, ?_, ?_, ?_⟩
    · rw [gtx, hq, if_neg (by simp)]
      exact h2
    · rw [gcb, gc, h3]
    · rw [gmb, gm, h4]
  · intro s qu hinv
    unfold baselineInv at hinv ⊢
    cases hit : s._in_tx <;> simp [on_error, tx_error, hit]
    exact hinv hit
  · exact on_success_ok_inv
  · intro s s' hok
    unfold abort_tx at hok
    split at hok
    · cases hok
    · cases hok
      simp [baselineInv, _reset_tx_state, _invalidate_local_cache]
  · intro s
    simp [baselineInv, rollback, _reset_tx_state, _invalidate_local_cache]

/-- Witness for C5 at concrete inputs: the invariant holds for a fresh view
and is preserved across a concrete start, error, success, abort and
rollback. -/
theorem c5_witness :
    baselineInv (init exDb 0) ∧
    baselineInv { exView with _in_tx := true, _txid := some 1 } ∧
    baselineInv (DatabaseConnectionView.on_error
      { exView with _in_tx := true, _txid := some 1 } (exUnit 0)) ∧
    baselineInv { exView with _in_tx := true, _txid := some 1, _config := 7 } ∧
    baselineInv exView ∧
    baselineInv exTxView.rollback := by
  refine ⟨c5_invariant_preserved.1 exDb 0, ?_, ?_, ?_, ?_,
    c5_invariant_preserved.2.2.2.2.2 exTxView⟩
  · exact c5_invariant_preserved.2.1 exView
      { exUnit 0 with is_preparable := false, starts_tx := true, txid := some 1 }
      { exView with _in_tx := true, _txid := some 1 } (by decide) (by rfl)
  · exact c5_invariant_preserved.2.2.1
      { exView with _in_tx := true, _txid := some 1 } (exUnit 0) (by decide)
  · exact c5_invariant_preserved.2.2.2.1
      { exView with _in_tx := true, _txid := some 1 }
      { exUnit 0 with config := some 7 }
      { exView with _in_tx := true, _txid := some 1, _config := 7 }
      (by decide) (by rfl)
  · exact c5_invariant_preserved.2.2.2.2.1
      { exView with _in_tx := true, _txid := some 1 } exView (by rfl)

end DatabaseConnectionView

/-- When the pairing loop of `check_function` accepts a call with more
arguments than parameters, the overload has a variadic parameter and every
surplus argument passed the subtype check against its declared type. -/
theorem checkLoop_ok_true_surplus (issub : Nat → Nat → Bool) (f : FuncSig) :
    ∀ (pts ats : List Nat), checkLoop issub f pts ats = .ok true →
    pts.length < ats.length →
    ∃ v pt, f.varparam = some v ∧ f.paramtypes[v - 1]? = some pt ∧
      ∀ a ∈ ats.drop pts.length, issub a pt = true := by
  intro pts
  induction pts with
  | nil =>
      intro ats h hlen
      match ats, hlen with
      | a :: ats, _ =>
          unfold checkLoop at h
          rcases hv : f.varparam with _ | v <;> rw [hv] at h
          · simp at h
          · rcases hg : f.paramtypes[v - 1]? with _ | pt
            · simp [hg] at h
            · simp only [hg] at h
              refine ⟨v, pt, rfl, hg, ?_⟩
              simpa [List.all_eq_true] using h
  | cons p ps ih =>
      intro ats h hlen
      match ats with
      | [] => simp at hlen
      | a :: ats =>
          unfold checkLoop at h
          by_cases hs : issub a p
          · rw [if_pos hs] at h
            simpa using ih ats h (by simpa using hlen)
          · rw [if_neg hs] at h
            simp at h

/-- C6: for a call with more arguments than the (non-empty) parameter list,
`check_function` matches only when a variadic parameter is declared, with
every surplus argument a subtype of its declared type; and the selection loop
of `compile_FunctionCall` picks the first overload in catalog order whose
check succeeds, raising the no-variant error when every check fails. -/
theorem c6_overload_matching :
    (∀ (issub : Nat → Nat → Bool) (f : FuncSig) (ats : List Nat),
       f.paramtypes ≠ [] → f.paramtypes.length < ats.length →
       check_function issub f ats = .ok true →
       ∃ v pt, f.varparam = some v ∧ f.paramtypes[v - 1]? = some pt ∧
         ∀ a ∈ ats.drop f.paramtypes.length, issub a pt = true) ∧
    (∀ (issub : Nat → Nat → Bool) (fs : List FuncSig) (ats : List Nat)
       (f : FuncSig),
       compile_FunctionCall_select issub fs ats = .ok f →
       ∃ l1 l2, fs = l1 ++ f :: l2 ∧
         check_function issub f ats = .ok true ∧
         ∀ g ∈ l1, check_function issub g ats = .ok false) ∧
    (∀ (issub : Nat → Nat → Bool) (fs : List FuncSig) (ats : List Nat),
       (∀ g ∈ fs, check_function issub g ats = .ok false) →
       compile_FunctionCall_select issub fs ats = .error .noVariant) := by
  refine ⟨?_, ?_, ?_⟩
  · intro issub f ats hne hlen h
    unfold check_function at h
    rw [if_neg (by simpa using hne)] at h
    have hats : ats ≠ [] := by
      intro he
      rw [he] at hlen
      simp at hlen
    rw [if_neg (by simpa using hats)] at h
    exact checkLoop_ok_true_surplus issub f f.paramtypes ats h hlen
  · intro issub fs ats
    induction fs with
    | nil => intro f h; cases h
    | cons g fs ih =>
        intro f h
        unfold compile_FunctionCall_select at h
        rcases hch : check_function issub g ats with e | b <;> rw [hch] at h
        · cases h
        · cases b
          · obtain ⟨l1, l2, hfs, hok, hall⟩ := ih f h
            refine ⟨g :: l1, l2, by simp [hfs], hok, ?_⟩
            intro x hx
            rcases List.mem_cons.mp hx with hx | hx
            · rw [hx]; exact hch
            · exact hall x hx
          · cases h
            exact ⟨[], fs, rfl, hch, by simp⟩
  · intro issub fs ats hall
    induction fs with
    | nil => rfl
    | cons g fs ih =>
        unfold compile_FunctionCall_select
        rw [hall g (by simp)]
        exact ih (fun x hx => hall x (by simp [hx]))

/-- Witness for C6 at concrete inputs (the two overloads of the
specification example): `f(1,2,3)` selects the variadic overload with the
surplus checked against the variadic type, `f(1)` selects the first overload,
and a call matching no overload yields the no-variant error. -/
theorem c6_witness :
    (check_function (fun a p => a == p)
       { paramtypes := [0, 0], paramdefaults := [none, none], varparam := some 2 }
       [0, 0, 0, 0] = .ok true ∧
     (∃ v pt,
        ({ paramtypes := [0, 0], paramdefaults := [none, none], varparam := some 2 } :
          FuncSig).varparam = some v ∧
        ({ paramtypes := [0, 0], paramdefaults := [none, none], varparam := some 2 } :
          FuncSig).paramtypes[v - 1]? = some pt ∧
        ∀ a ∈ ([0, 0, 0, 0] : List Nat).drop 2, (a == pt) = true)) ∧
    (compile_FunctionCall_select (fun a p => a == p)
       [{ paramtypes := [0], paramdefaults := [none], varparam := none },
        { paramtypes := [0, 0], paramdefaults := [none, none], varparam := some 2 }]
       [0, 0, 0, 0] =
       .ok { paramtypes := [0, 0], paramdefaults := [none, none], varparam := some 2 } ∧
     compile_FunctionCall_select (fun a p => a == p)
       [{ paramtypes := [0], paramdefaults := [none], varparam := none },
        { paramtypes := [0, 0], paramdefaults := [none, none], varparam := some 2 }]
       [0] =
       .ok { paramtypes := [0], paramdefaults := [none], varparam := none }) ∧
    compile_FunctionCall_select (fun a p => a == p)
      [{ paramtypes := [0], paramdefaults := [none], varparam := none }]
      [0, 0] = .error .noVariant := by
  refine ⟨⟨by decide, ?_⟩, ⟨by decide, by decide⟩, ?_⟩
  · exact c6_overload_matching.1 (fun a p => a == p)
      { paramtypes := [0, 0], paramdefaults := [none, none], varparam := some 2 }
      [0, 0, 0, 0] (by decide) (by decide) (by decide)
  · exact c6_overload_matching.2.2 (fun a p => a == p)
      [{ paramtypes := [0], paramdefaults := [none], varparam := none }]
      [0, 0]
      (by intro g hg
          rw [List.mem_singleton] at hg
          subst hg
          decide)

/-- With fewer arguments than parameters, the pairing loop never accepts: it
either rejects at a supplied argument that fails its positional subtype
check, or — when every supplied argument passes — reaches the absent-padded
argument and raises (the AttributeError of `None.issubclass`). -/
theorem checkLoop_short_args (issub : Nat → Nat → Bool) (f : FuncSig) :
    ∀ (ats pts : List Nat), ats.length < pts.length →
    (checkLoop issub f pts ats ≠ .ok true) ∧
    ((∀ pr ∈ pts.zip ats, issub pr.2 pr.1 = true) →
      checkLoop issub f pts ats = .error ()) := by
  intro ats
  induction ats with
  | nil =>
      intro pts hlen
      match pts, hlen with
      | p :: pts, _ =>
          unfold checkLoop
          exact ⟨by simp, fun _ => rfl⟩
  | cons a ats ih =>
      intro pts hlen
      match pts with
      | [] => simp at hlen
      | p :: pts =>
          unfold checkLoop
          by_cases hs : issub a p
          · rw [if_pos hs]
            have h2 := ih pts (by simpa using hlen)
            exact ⟨h2.1, fun hall => h2.2 (fun pr hpr => hall pr (by simp [hpr]))⟩
          · rw [if_neg hs]
            refine ⟨by simp, fun hall => ?_⟩
            exact absurd (hall (p, a) (by simp)) (by simpa using hs)

/-- The pairing branch of `check_function` never reads the parameter
defaults. -/
theorem checkLoop_paramdefaults (issub : Nat → Nat → Bool) (f : FuncSig)
    (ds : List (Option Nat)) :
    ∀ pts ats, checkLoop issub { f with paramdefaults := ds } pts ats =
      checkLoop issub f pts ats := by
  intro pts
  induction pts with
  | nil => intro ats; cases ats <;> simp [checkLoop]
  | cons p pts ih => intro ats; cases ats <;> simp [checkLoop, ih]

/-- `check_function` ignores the parameter defaults whenever at least one
argument is supplied. -/
theorem check_function_paramdefaults (issub : Nat → Nat → Bool) (f : FuncSig)
    (ds : List (Option Nat)) (ats : List Nat) (hne : ats ≠ []) :
    check_function issub { f with paramdefaults := ds } ats =
      check_function issub f ats := by
  have hae : ats.isEmpty = false := by simpa using hne
  unfold check_function
  by_cases hp : f.paramtypes.isEmpty <;>
    simp [hp, hae, checkLoop_paramdefaults]

/-- Counterexample to C9: an overload `f(A, B)` called with one argument
whose type is not a subtype of `A` makes `check_function` return a no-match
verdict rather than raise — the padded absent argument is only reached when
every supplied argument passes its positional check. -/
theorem c9_counterexample :
    ({ paramtypes := [0, 5], paramdefaults := [none, none],
       varparam := none } : FuncSig).paramtypes ≠ [] ∧
    1 ≤ ([1] : List Nat).length ∧
    ([1] : List Nat).length <
      ({ paramtypes := [0, 5], paramdefaults := [none, none],
         varparam := none } : FuncSig).paramtypes.length ∧
    check_function (fun a p => a == p)
      { paramtypes := [0, 5], paramdefaults := [none, none],
        varparam := none } [1] = .ok false ∧
    check_function (fun a p => a == p)
      { paramtypes := [0, 5], paramdefaults := [none, none],
        varparam := none } [1] ≠ .error () := by
  refine ⟨by decide, by decide, by decide, by decide, by decide⟩

/-- C9 as amended: for a call supplying at least one but fewer arguments
than the declared parameters, `check_function` never returns a match — it
returns no-match when some supplied argument fails its positional subtype
check, and raises the attribute error (the padded absent argument reaching
`issubclass`) exactly when every supplied argument passes; the parameter
defaults are never consulted on this path. -/
theorem c9_missing_args_amended :
    ∀ (issub : Nat → Nat → Bool) (f : FuncSig) (ats : List Nat),
      ats ≠ [] → ats.length < f.paramtypes.length →
      check_function issub f ats ≠ .ok true ∧
      ((∀ pr ∈ f.paramtypes.zip ats, issub pr.2 pr.1 = true) →
        check_function issub f ats = .error ()) ∧
      (∀ ds, check_function issub { f with paramdefaults := ds } ats =
        check_function issub f ats) := by
  intro issub f ats hne hlen
  have hpne : f.paramtypes ≠ [] := by
    intro he
    rw [he] at hlen
    simp at hlen
  have h2 := checkLoop_short_args issub f ats f.paramtypes hlen
  refine ⟨?_, ?_, fun ds => check_function_paramdefaults issub f ds ats hne⟩
  · unfold check_function
    rw [if_neg (by simpa using hpne), if_neg (by simpa using hne)]
    exact h2.1
  · intro hall
    unfold check_function
    rw [if_neg (by simpa using hpne), if_neg (by simpa using hne)]
    exact h2.2 hall

/-- Witness for the amended C9: `f(A, B)` called with one argument whose
type passes the first positional check raises the attribute error, never a
match, and ignores the defaults. -/
theorem c9_witness :
    ([7] : List Nat) ≠ [] ∧
    ([7] : List Nat).length <
      ({ paramtypes := [7, 5], paramdefaults := [none, none],
         varparam := none } : FuncSig).paramtypes.length ∧
    check_function (fun a p => a == p)
      { paramtypes := [7, 5], paramdefaults := [none, none],
        varparam := none } [7] ≠ .ok true ∧
    check_function (fun a p => a == p)
      { paramtypes := [7, 5], paramdefaults := [none, none],
        varparam := none } [7] = .error () ∧
    check_function (fun a p => a == p)
      { paramtypes := [7, 5], paramdefaults := [some 1, some 1],
        varparam := none } [7] =
      check_function (fun a p => a == p)
        { paramtypes := [7, 5], paramdefaults := [none, none],
          varparam := none } [7] := by
  have h := c9_missing_args_amended (fun a p => a == p)
    { paramtypes := [7, 5], paramdefaults := [none, none], varparam := none }
    [7] (by decide) (by decide)
  refine ⟨by decide, by decide, h.1, ?_, ?_⟩
  · exact h.2.1 (by intro pr hpr; simp at hpr; subst hpr; decide)
  · exact h.2.2 [some 1, some 1]

/-- A shorthand-shaped definition is an operation definition. -/
theorem GDef.isShort_isOp (d : GDef) (h : d.isShort = true) : d.isOp = true := by
  cases d with
  | opDef ty name vars dirs => rfl
  | fragDef n => cases h

/-- Every definition is an operation or a fragment, so the definition count
splits into the operation count and the fragment count. -/
theorem length_eq_op_add_frag (ds : List GDef) :
    ds.length = (ds.filter GDef.isOp).length +
      (ds.filter (fun d => !d.isOp)).length := by
  induction ds with
  | nil => rfl
  | cons d ds ih =>
      cases hd : d.isOp <;> simp [List.filter_cons, hd, ih] <;> omega

/-- On a normal completion the definition loop has accumulated exactly one
fragment name per fragment definition. -/
theorem documentLoop_ok_frag_count :
    ∀ (ds : List GDef) (short : Option GDef) (frags ops : List Nat)
      (r : Option GDef × List Nat × List Nat),
      documentLoop ds short frags ops = .ok r →
      r.2.1.length = frags.length + (ds.filter (fun d => !d.isOp)).length := by
  intro ds
  induction ds with
  | nil =>
      intro short frags ops r h
      cases h
      simp
  | cons d ds ih =>
      intro short frags ops r h
      cases d with
      | opDef ty name vars dirs =>
          rcases name with _ | n
          · simp only [documentLoop] at h
            split at h <;>
              simpa [List.filter_cons, GDef.isOp] using ih _ _ _ r h
          · simp only [documentLoop] at h
            split at h
            · cases h
            · simpa [List.filter_cons, GDef.isOp] using ih _ _ _ r h
      | fragDef n =>
          simp only [documentLoop] at h
          split at h
          · cases h
          · have := ih _ _ _ r h
            simp [List.filter_cons, GDef.isOp] at this ⊢
            omega

/-- On a normal completion the accumulated shorthand is present exactly when
one was already accumulated or a shorthand-shaped operation occurs in the
remaining definitions. -/
theorem documentLoop_ok_short :
    ∀ (ds : List GDef) (short : Option GDef) (frags ops : List Nat)
      (r : Option GDef × List Nat × List Nat),
      documentLoop ds short frags ops = .ok r →
      r.1.isSome = (short.isSome || ds.any GDef.isShort) := by
  intro ds
  induction ds with
  | nil =>
      intro short frags ops r h
      cases h
      simp
  | cons d ds ih =>
      intro short frags ops r h
      cases d with
      | opDef ty name vars dirs =>
          rcases name with _ | n
          · simp only [documentLoop] at h
            split at h
            next hcond =>
              have := ih _ _ _ r h
              simp only [Bool.and_eq_true, Option.isNone_iff_eq_none,
                decide_eq_true_eq, List.isEmpty_iff] at hcond
              obtain ⟨⟨⟨hsh, hty⟩, hv⟩, hdir⟩ := hcond
              subst hty hv hdir
              simp [this, hsh, GDef.isShort]
            next hcond =>
              have := ih _ _ _ r h
              rw [this]
              by_cases hsh : short.isSome
              · simp [hsh]
              · have hshn : short = none := by
                  simpa [Option.isNone_iff_eq_none] using hsh
                subst hshn
                have hshort : GDef.isShort (.opDef ty none vars dirs) = false := by
                  unfold GDef.isShort
                  rcases ty with _ | t
                  · rcases vars with _ | ⟨v, vs⟩
                    · rcases dirs with _ | ⟨dd, dds⟩
                      · exfalso
                        apply hcond
                        simp
                      · rfl
                    · rfl
                  · rfl
                simp [hshort]
          · simp only [documentLoop] at h
            split at h
            · cases h
            · have := ih _ _ _ r h
              rw [this]
              simp [GDef.isShort]
      | fragDef n =>
          simp only [documentLoop] at h
          split at h
          · cases h
          · have := ih _ _ _ r h
            rw [this]
            simp [GDef.isShort]

theorem opNames_cons_some (ty : Option Nat) (n : Nat) (vars dirs : List Nat)
    (ds : List GDef) :
    opNames (.opDef ty (some n) vars dirs :: ds) = n :: opNames ds := by
  simp [opNames, opName]

theorem opNames_cons_none (ty : Option Nat) (vars dirs : List Nat)
    (ds : List GDef) :
    opNames (.opDef ty none vars dirs :: ds) = opNames ds := by
  simp [opNames, opName]

theorem opNames_cons_frag (n : Nat) (ds : List GDef) :
    opNames (.fragDef n :: ds) = opNames ds := by
  simp [opNames, opName]

theorem fragNames_cons_op (ty nm : Option Nat) (vars dirs : List Nat)
    (ds : List GDef) :
    fragNames (.opDef ty nm vars dirs :: ds) = fragNames ds := by
  simp [fragNames, fragName]

theorem fragNames_cons_frag (n : Nat) (ds : List GDef) :
    fragNames (.fragDef n :: ds) = n :: fragNames ds := by
  simp [fragNames, fragName]

/-- With pairwise-distinct operation and fragment names, all fresh with
respect to the accumulators, the definition loop completes normally. -/
theorem documentLoop_nodup_ok :
    ∀ (ds : List GDef) (short : Option GDef) (frags ops : List Nat),
      (opNames ds).Nodup → (∀ n ∈ opNames ds, n ∉ ops) →
      (fragNames ds).Nodup → (∀ n ∈ fragNames ds, n ∉ frags) →
      ∃ r, documentLoop ds short frags ops = .ok r := by
  intro ds
  induction ds with
  | nil =>
      intro short frags ops _ _ _ _
      exact ⟨(short, frags, ops), rfl⟩
  | cons d ds ih =>
      intro short frags ops hop hopf hfr hfrf
      cases d with
      | opDef ty name vars dirs =>
          rcases name with _ | n
          · rw [opNames_cons_none] at hop hopf
            rw [fragNames_cons_op] at hfr hfrf
            simp only [documentLoop]
            split
            · exact ih _ frags ops hop hopf hfr hfrf
            · exact ih _ frags ops hop hopf hfr hfrf
          · rw [opNames_cons_some] at hop hopf
            rw [fragNames_cons_op] at hfr hfrf
            obtain ⟨hn1, hop2⟩ := List.nodup_cons.mp hop
            have hn : n ∉ ops := hopf n (by simp)
            simp only [documentLoop, if_neg hn]
            apply ih _ frags (n :: ops) hop2 ?_ hfr hfrf
            intro m hm hc
            rcases List.mem_cons.mp hc with he | hmem
            · subst he
              exact hn1 hm
            · exact hopf m (List.mem_cons_of_mem _ hm) hmem
      | fragDef n =>
          rw [opNames_cons_frag] at hop hopf
          rw [fragNames_cons_frag] at hfr hfrf
          obtain ⟨hn1, hfr2⟩ := List.nodup_cons.mp hfr
          have hn : n ∉ frags := hfrf n (by simp)
          simp only [documentLoop, if_neg hn]
          apply ih short (n :: frags) ops hop hopf hfr2
          intro m hm hc
          rcases List.mem_cons.mp hc with he | hmem
          · subst he
            exact hn1 hm
          · exact hfrf m (List.mem_cons_of_mem _ hm) hmem

/-- The definition loop only ever raises uniqueness errors. -/
theorem documentLoop_error_uniq :
    ∀ (ds : List GDef) (short : Option GDef) (frags ops : List Nat)
      (e : GqlErr), documentLoop ds short frags ops = .error e →
      e = .uniquenessError "operation" ∨ e = .uniquenessError "fragment" := by
  intro ds
  induction ds with
  | nil =>
      intro short frags ops e h
      cases h
  | cons d ds ih =>
      intro short frags ops e h
      cases d with
      | opDef ty name vars dirs =>
          rcases name with _ | n
          · simp only [documentLoop] at h
            split at h
            · exact ih _ _ _ e h
            · exact ih _ _ _ e h
          · simp only [documentLoop] at h
            split at h
            · cases h
              exact Or.inl rfl
            · exact ih _ _ _ e h
      | fragDef n =>
          simp only [documentLoop] at h
          split at h
          · cases h
            exact Or.inr rfl
          · exact ih _ _ _ e h

/-- A normal completion of the definition loop certifies that the operation
and fragment names were pairwise distinct and fresh with respect to the
accumulators. -/
theorem documentLoop_ok_nodup :
    ∀ (ds : List GDef) (short : Option GDef) (frags ops : List Nat)
      (r : Option GDef × List Nat × List Nat),
      documentLoop ds short frags ops = .ok r →
      (opNames ds).Nodup ∧ (∀ n ∈ opNames ds, n ∉ ops) ∧
      (fragNames ds).Nodup ∧ (∀ n ∈ fragNames ds, n ∉ frags) := by
  intro ds
  induction ds with
  | nil =>
      intro short frags ops r _
      exact ⟨List.nodup_nil, by simp [opNames], List.nodup_nil,
        by simp [fragNames]⟩
  | cons d ds ih =>
      intro short frags ops r h
      cases d with
      | opDef ty name vars dirs =>
          rcases name with _ | n
          · rw [opNames_cons_none, fragNames_cons_op]
            simp only [documentLoop] at h
            split at h
            · exact ih _ _ _ r h
            · exact ih _ _ _ r h
          · rw [opNames_cons_some, fragNames_cons_op]
            simp only [documentLoop] at h
            split at h
            · cases h
            next hnmem =>
              obtain ⟨h1, h2, h3, h4⟩ := ih _ _ _ r h
              refine ⟨List.nodup_cons.mpr ⟨?_, h1⟩, ?_, h3, h4⟩
              · intro hm
                exact (h2 n hm) (by simp)
              · intro m hm
                rcases List.mem_cons.mp hm with he | hmem
                · subst he
                  exact hnmem
                · intro hc
                  exact h2 m hmem (List.mem_cons_of_mem _ hc)
      | fragDef n =>
          rw [opNames_cons_frag, fragNames_cons_frag]
          simp only [documentLoop] at h
          split at h
          · cases h
          next hnmem =>
            obtain ⟨h1, h2, h3, h4⟩ := ih _ _ _ r h
            refine ⟨h1, h2, List.nodup_cons.mpr ⟨?_, h3⟩, ?_⟩
            · intro hm
              exact (h4 n hm) (by simp)
            · intro m hm
              rcases List.mem_cons.mp hm with he | hmem
              · subst he
                exact hnmem
              · intro hc
                exact h4 m hmem (List.mem_cons_of_mem _ hc)

/-- Counterexample to C7: a document holding a shorthand operation and two
operations sharing the name `1` is rejected with the uniqueness error raised
inside the definition loop, not with `short form is not allowed here` as the
claim states for every non-sole shorthand. -/
theorem c7_counterexample :
    (([.opDef none none [] [], .opDef none (some 1) [] [],
       .opDef none (some 1) [] []] : List GDef).filter GDef.isOp).length > 1 ∧
    GDef.isShort (.opDef none none [] []) = true ∧
    (.opDef none none [] [] : GDef) ∈
      ([.opDef none none [] [], .opDef none (some 1) [] [],
        .opDef none (some 1) [] []] : List GDef) ∧
    reduce_Definitions
      [.opDef none none [] [], .opDef none (some 1) [] [],
       .opDef none (some 1) [] []] = .error (.uniquenessError "operation") ∧
    reduce_Definitions
      [.opDef none none [] [], .opDef none (some 1) [] [],
       .opDef none (some 1) [] []] ≠
      .error (.parserError "short form is not allowed here") :=
  ⟨by decide, by decide, by decide, by decide, by decide⟩

/-- `reduce_Definitions` unfolded on a normal loop completion. -/
theorem reduce_Definitions_loop_ok (defs : List GDef) (short : Option GDef)
    (frags ops : List Nat)
    (hl : documentLoop defs none [] [] = .ok (short, frags, ops)) :
    reduce_Definitions defs =
      if (short.isSome && decide (defs.length - frags.length > 1)) = true
      then .error (.parserError "short form is not allowed here")
      else .ok defs := by
  unfold reduce_Definitions
  rw [hl]

/-- `reduce_Definitions` propagates a loop error. -/
theorem reduce_Definitions_loop_error (defs : List GDef) (e : GqlErr)
    (hl : documentLoop defs none [] [] = .error e) :
    reduce_Definitions defs = .error e := by
  unfold reduce_Definitions
  rw [hl]

/-- C7 as amended: a shorthand-shaped operation is accepted only when it is
the sole operation definition of the document (fragments do not count); when
a shorthand is present alongside other operations the reduction fails — with
`short form is not allowed here` when operation and fragment names are
pairwise distinct, and otherwise with the uniqueness error raised first by
the name checks. -/
theorem c7_short_form_amended :
    (∀ (defs res : List GDef),
       reduce_Definitions defs = .ok res →
       ∀ d ∈ defs, d.isShort = true →
       (defs.filter GDef.isOp).length = 1) ∧
    (∀ defs : List GDef,
       (∃ d ∈ defs, d.isShort = true) →
       (defs.filter GDef.isOp).length > 1 →
       (opNames defs).Nodup → (fragNames defs).Nodup →
       reduce_Definitions defs =
         .error (.parserError "short form is not allowed here")) := by
  constructor
  · intro defs res h d hd hshort
    rcases hl : documentLoop defs none [] [] with e | r
    · rw [reduce_Definitions_loop_error defs e hl] at h
      cases h
    · obtain ⟨short, frags, ops⟩ := r
      rw [reduce_Definitions_loop_ok defs short frags ops hl] at h
      split at h
      · cases h
      next hcond =>
        have hsome : short.isSome = true := by
          have := documentLoop_ok_short defs none [] [] _ hl
          simp only [Option.isSome_none, Bool.false_or] at this
          rw [this, List.any_eq_true]
          exact ⟨d, hd, hshort⟩
        have hfrag := documentLoop_ok_frag_count defs none [] [] _ hl
        simp only [List.length_nil, Nat.zero_add] at hfrag
        have hsplit := length_eq_op_add_frag defs
        have hop1 : 0 < (defs.filter GDef.isOp).length :=
          List.length_pos_of_mem
            (List.mem_filter.mpr ⟨hd, GDef.isShort_isOp d hshort⟩)
        have hle : ¬ (defs.length - frags.length > 1) := by
          intro hgt2
          exact hcond (by simp [hsome, hgt2])
        omega
  · intro defs hex hgt hopn hfrn
    obtain ⟨r, hl⟩ := documentLoop_nodup_ok defs none [] [] hopn
      (by simp) hfrn (by simp)
    obtain ⟨short, frags, ops⟩ := r
    have hsome : short.isSome = true := by
      have := documentLoop_ok_short defs none [] [] _ hl
      simp only [Option.isSome_none, Bool.false_or] at this
      rw [this, List.any_eq_true]
      obtain ⟨d, hd, hshort⟩ := hex
      exact ⟨d, hd, hshort⟩
    have hfrag := documentLoop_ok_frag_count defs none [] [] _ hl
    simp only [List.length_nil, Nat.zero_add] at hfrag
    have hsplit := length_eq_op_add_frag defs
    have hcond : (short.isSome &&
        decide (defs.length - frags.length > 1)) = true := by
      simp only [hsome, Bool.true_and, decide_eq_true_eq]
      omega
    rw [reduce_Definitions_loop_ok defs short frags ops hl, if_pos hcond]

/-- Witness for the amended C7: a shorthand plus one fragment is accepted
with the shorthand the sole operation; a shorthand plus a named operation
fails with the short-form error. -/
theorem c7_witness :
    reduce_Definitions [.opDef none none [] [], .fragDef 4] =
      .ok [.opDef none none [] [], .fragDef 4] ∧
    (([.opDef none none [] [], .fragDef 4] : List GDef).filter
      GDef.isOp).length = 1 ∧
    reduce_Definitions [.opDef none none [] [], .opDef none (some 2) [] []] =
      .error (.parserError "short form is not allowed here") := by
  refine ⟨by decide, ?_, ?_⟩
  · exact c7_short_form_amended.1 [.opDef none none [] [], .fragDef 4]
      [.opDef none none [] [], .fragDef 4] (by decide)
      (.opDef none none [] []) (by decide) (by decide)
  · exact c7_short_form_amended.2
      [.opDef none none [] [], .opDef none (some 2) [] []]
      ⟨.opDef none none [] [], by decide, by decide⟩
      (by decide) (by decide) (by decide)

/-- Full characterisation of the argument-uniqueness loop. -/
theorem argumentsLoop_eq :
    ∀ (l : List GArg) (seen : List Nat),
      argumentsLoop l seen =
        if ((l.map GArg.name).Nodup ∧ ∀ n ∈ l.map GArg.name, n ∉ seen)
        then .ok () else .error (.uniquenessError "argument") := by
  intro l
  induction l with
  | nil => intro seen; simp [argumentsLoop]
  | cons a rest ih =>
      intro seen
      unfold argumentsLoop
      by_cases hm : a.name ∈ seen
      · rw [if_pos hm, if_neg]
        intro ⟨_, hfresh⟩
        exact hfresh a.name (by simp) hm
      · rw [if_neg hm, ih]
        by_cases hc : ((rest.map GArg.name).Nodup ∧
            ∀ n ∈ rest.map GArg.name, n ∉ a.name :: seen)
        · rw [if_pos hc, if_pos]
          obtain ⟨hnd, hfresh⟩ := hc
          refine ⟨List.nodup_cons.mpr ⟨?_, hnd⟩, ?_⟩
          · intro hmem
            exact hfresh a.name hmem (by simp)
          · intro n hn
            rw [List.map_cons] at hn
            rcases List.mem_cons.mp hn with he | hmem
            · subst he
              exact hm
            · intro hns
              exact hfresh n hmem (List.mem_cons_of_mem _ hns)
        · rw [if_neg hc, if_neg]
          intro ⟨hnd, hfresh⟩
          apply hc
          rw [List.map_cons, List.nodup_cons] at hnd
          refine ⟨hnd.2, ?_⟩
          intro n hn hns
          rcases List.mem_cons.mp hns with he | hmem
          · subst he
            exact hnd.1 hn
          · exact hfresh n (by simp [hn]) hmem

/-- Full characterisation of the variable-uniqueness loop. -/
theorem variablesLoop_eq :
    ∀ (l : List GVarDef) (seen : List Nat),
      variablesLoop l seen =
        if ((l.map GVarDef.name).Nodup ∧ ∀ n ∈ l.map GVarDef.name, n ∉ seen)
        then .ok () else .error (.uniquenessError "variable") := by
  intro l
  induction l with
  | nil => intro seen; simp [variablesLoop]
  | cons a rest ih =>
      intro seen
      unfold variablesLoop
      by_cases hm : a.name ∈ seen
      · rw [if_pos hm, if_neg]
        intro ⟨_, hfresh⟩
        exact hfresh a.name (by simp) hm
      · rw [if_neg hm, ih]
        by_cases hc : ((rest.map GVarDef.name).Nodup ∧
            ∀ n ∈ rest.map GVarDef.name, n ∉ a.name :: seen)
        · rw [if_pos hc, if_pos]
          obtain ⟨hnd, hfresh⟩ := hc
          refine ⟨List.nodup_cons.mpr ⟨?_, hnd⟩, ?_⟩
          · intro hmem
            exact hfresh a.name hmem (by simp)
          · intro n hn
            rw [List.map_cons] at hn
            rcases List.mem_cons.mp hn with he | hmem
            · subst he
              exact hm
            · intro hns
              exact hfresh n hmem (List.mem_cons_of_mem _ hns)
        · rw [if_neg hc, if_neg]
          intro ⟨hnd, hfresh⟩
          apply hc
          rw [List.map_cons, List.nodup_cons] at hnd
          refine ⟨hnd.2, ?_⟩
          intro n hn hns
          rcases List.mem_cons.mp hns with he | hmem
          · subst he
            exact hnd.1 hn
          · exact hfresh n (by simp [hn]) hmem

/-- C8: parsing raises a uniqueness error exactly when a name repeats within
its scope — argument lists and variable lists pass through exactly when
their names are pairwise distinct (failing with the uniqueness error
otherwise), and `reduce_Definitions` raises a uniqueness error exactly when
two operations share a present name or two fragments share a name. -/
theorem c8_uniqueness :
    (∀ args : List GArg,
       reduce_Arguments args =
         if (args.map GArg.name).Nodup then .ok args
         else .error (.uniquenessError "argument")) ∧
    (∀ vars : List GVarDef,
       reduce_Variables vars =
         if (vars.map GVarDef.name).Nodup then .ok vars
         else .error (.uniquenessError "variable")) ∧
    (∀ defs : List GDef,
       (∃ e, reduce_Definitions defs = .error (.uniquenessError e)) ↔
         ¬ ((opNames defs).Nodup ∧ (fragNames defs).Nodup)) := by
  refine ⟨?_, ?_, ?_⟩
  · intro args
    unfold reduce_Arguments
    rw [argumentsLoop_eq args []]
    by_cases hnd : (args.map GArg.name).Nodup
    · rw [if_pos hnd, if_pos ⟨hnd, by simp⟩]
    · rw [if_neg hnd, if_neg]
      intro ⟨hc, _⟩
      exact hnd hc
  · intro vars
    unfold reduce_Variables
    rw [variablesLoop_eq vars []]
    by_cases hnd : (vars.map GVarDef.name).Nodup
    · rw [if_pos hnd, if_pos ⟨hnd, by simp⟩]
    · rw [if_neg hnd, if_neg]
      intro ⟨hc, _⟩
      exact hnd hc
  · intro defs
    constructor
    · rintro ⟨e, he⟩ ⟨hopn, hfrn⟩
      obtain ⟨r, hl⟩ := documentLoop_nodup_ok defs none [] [] hopn
        (by simp) hfrn (by simp)
      obtain ⟨short, frags, ops⟩ := r
      rw [reduce_Definitions_loop_ok defs short frags ops hl] at he
      split at he
      · cases he
      · cases he
    · intro h
      rcases hl : documentLoop defs none [] [] with e | r
      · rcases documentLoop_error_uniq defs none [] [] e hl with he | he <;>
          exact ⟨_, by rw [reduce_Definitions_loop_error defs e hl, he]⟩
      · obtain ⟨short, frags, ops⟩ := r
        obtain ⟨h1, _, h3, _⟩ := documentLoop_ok_nodup defs none [] [] _ hl
        exact absurd ⟨h1, h3⟩ h

/-- Witness for C8 at concrete inputs: duplicate argument names, duplicate
variable names, duplicate operation names and duplicate fragment names each
raise the uniqueness error, while the distinct-name variants pass. -/
theorem c8_witness :
    reduce_Arguments [⟨1, 0⟩, ⟨1, 0⟩] = .error (.uniquenessError "argument") ∧
    reduce_Arguments [⟨1, 0⟩, ⟨2, 0⟩] = .ok [⟨1, 0⟩, ⟨2, 0⟩] ∧
    reduce_Variables [⟨1, 0, none⟩, ⟨1, 0, none⟩] =
      .error (.uniquenessError "variable") ∧
    reduce_Variables [⟨1, 0, none⟩, ⟨2, 0, none⟩] =
      .ok [⟨1, 0, none⟩, ⟨2, 0, none⟩] ∧
    (∃ e, reduce_Definitions
       [.opDef none (some 1) [] [], .opDef none (some 1) [] []] =
       .error (.uniquenessError e)) ∧
    (∃ e, reduce_Definitions [.fragDef 3, .fragDef 3] =
       .error (.uniquenessError e)) ∧
    ¬ (∃ e, reduce_Definitions
        [.opDef none (some 1) [] [], .fragDef 3] =
        .error (.uniquenessError e)) := by
  refine ⟨?_, ?_, ?_, ?_, ?_, ?_, ?_⟩
  · rw [c8_uniqueness.1 [⟨1, 0⟩, ⟨1, 0⟩], if_neg (by decide)]
  · rw [c8_uniqueness.1 [⟨1, 0⟩, ⟨2, 0⟩], if_pos (by decide)]
  · rw [c8_uniqueness.2.1 [⟨1, 0, none⟩, ⟨1, 0, none⟩], if_neg (by decide)]
  · rw [c8_uniqueness.2.1 [⟨1, 0, none⟩, ⟨2, 0, none⟩], if_pos (by decide)]
  · exact (c8_uniqueness.2.2 _).mpr (by decide)
  · exact (c8_uniqueness.2.2 _).mpr (by decide)
  · intro hex
    exact absurd ((c8_uniqueness.2.2 _).mp hex) (by decide)
